import Mathlib

set_option maxRecDepth 10000
set_option maxHeartbeats 1000000

/-!
A shallow embedding of the sesascript front end
(`src/main/tokenizer.py`, `src/main/ast.py`, `src/utils/mem_iter.py`),
with theorems checking the specification's claims against it.

Python mutable state is threaded explicitly:
the shared `MemIter` buffer becomes a `MemSt` value, each cursor its
`index : Int`, and the mutable `Infer` type cells live in an explicit `Heap`.
-/

namespace Sesa

/-! Tokens (`tokenizer.py`, `TokenType` and `Token`). -/

inductive TokenType where
  | operator
  | string_literal
  | whitespace
  | var_name
  | unknown
  | new_line
deriving DecidableEq, Repr

structure Token where
  type : TokenType
  value : String
deriving DecidableEq, Repr

/-!
Speculative cursor (`mem_iter.py`, class `MemIter`).

A `MemIter` holds a shared underlying iterator and a shared append-only
`elements` buffer, plus a per-cursor `index` and an optional `parent`
back-reference.  We model the shared part as `MemSt`: the full underlying
stream `src` together with `pulled`, the number of items pulled into
`elements` so far (the buffer's contents are always `src.take pulled`).
Each cursor is its `index : Int`, threaded explicitly; the `parent`
back-reference is modeled by returning the updated parent index from every
code path that calls `update_parent`.
-/

structure MemSt (T : Type) where
  src : List T
  pulled : Nat
deriving Repr

/-- Buffer contents of the shared `elements` list. -/
def MemSt.buffer {T} (s : MemSt T) : List T := s.src.take s.pulled

/-- Models `MemIter.__next__`: `index += 1`, pulling one item into the buffer
when `index >= len(elements)`.  `none` models `StopIteration` from the
depleted underlying iterator.  (In Python the failing cursor's index has
already been incremented, but that cursor is never observed again: `for`
loops catch the exception and stop, and the one raw `next` call in
`tokenize_string_literal` lets it propagate.) -/
def memNext {T} (s : MemSt T) (i : Int) : Option (MemSt T × Int) :=
  if i + 1 < (s.pulled : Int) then some (s, i + 1)
  else if s.pulled < s.src.length then some ({ s with pulled := s.pulled + 1 }, i + 1)
  else none

/-- Models the `MemIter.value` property: `elements[index]`, guarded by the
`index == -1` check.  `none` covers both that guard's `IndexError` and an
out-of-range read; the latter is unreachable for cursors produced by the
API, where a successful `__next__` always leaves `index < len(elements)`. -/
def memValue {T} (s : MemSt T) (i : Int) : Option T :=
  if 0 ≤ i ∧ i < (s.pulled : Int) then s.src.get? i.toNat else none

/-- One iteration of a `for x in cursor:` loop followed by a read of
`x.value`, the pattern by which every tokenizer and grammar loop consumes
items. -/
def memStep {T} (s : MemSt T) (i : Int) : Option (MemSt T × Int × T) :=
  match memNext s i with
  | none => none
  | some (s', i') =>
    match memValue s' i' with
    | none => none
    | some v => some (s', i', v)

/-- Models `MemIter.split(offset)`: the child cursor's starting index
`max(-1, index - 1 + offset)`. -/
def splitIdx (i offset : Int) : Int := max (-1) (i - 1 + offset)

/-- Models `MemIter.go_back_by(n)`: `index = max(0, index - n)`. -/
def go_back_by (i : Int) (n : Int) : Int := max 0 (i - n)

/-- Models `MemIter.update_parent`: the parent's index is assigned the
child's index. -/
def update_parent (childIdx _parentIdx : Int) : Int := childIdx

/-- Advancing a cursor `n` times (stopping at `StopIteration`), the way a
forked cursor is advanced during a speculative attempt. -/
def advanceN {T} (s : MemSt T) (i : Int) : Nat → MemSt T × Int
  | 0 => (s, i)
  | n + 1 =>
    match memNext s i with
    | some (s', i') => advanceN s' i' n
    | none => (s, i)

/-!
Tokenizer recognizers (`tokenizer.py`).

Each recognizer takes the shared character state and the parent cursor's
index and returns the new state, the (possibly committed) parent index, and
a result: a token, a decline (`None` in Python), or an uncaught exception.
-/

inductive TokResult where
  | tok (t : Token)
  | noMatch
  | exc
deriving DecidableEq, Repr

/-- The module-level `operators` set (only `"="` is registered). -/
def operators : List String := ["="]

def operators_max_size : Nat := 1

/-- The `string_quotes` list: double quote, apostrophe, backtick
(codepoints 34, 39, 96). -/
def string_quotes : List Char := [Char.ofNat 34, Char.ofNat 39, Char.ofNat 96]

/-- Python's `re.match(r"\s", c)` on a one-character string: the Unicode
whitespace class (tab, newline, vertical tab, form feed, carriage return,
the file/group/record/unit separators 0x1c-0x1f, space, next line 0x85,
and the Unicode space separators). -/
def isPyWhitespace (c : Char) : Bool :=
  ([9, 10, 11, 12, 13, 28, 29, 30, 31, 32, 0x85, 0xa0, 0x1680,
    0x2000, 0x2001, 0x2002, 0x2003, 0x2004, 0x2005, 0x2006, 0x2007,
    0x2008, 0x2009, 0x200a, 0x2028, 0x2029, 0x202f, 0x205f, 0x3000] : List Nat).contains c.toNat

/-- The scanning loop of `tokenize_string_literal` (its second `for`):
`p` is the parent index to report when the loop runs off the end of the
input (the function then falls through, returning `None`); a backslash
takes itself and the next character verbatim (the raw `next(char)` there
lets `StopIteration` escape, modeled by `.exc`); any member of
`string_quotes` closes the literal and commits the parent to the closing
quote's position, which is excluded from the token text. -/
def scanLit (p : Int) : Nat → MemSt Char → Int → List Char → MemSt Char × Int × TokResult
  | 0, s, _, _ => (s, p, .noMatch)
  | fuel + 1, s, j, acc =>
    match memStep s j with
    | none => (s, p, .noMatch)
    | some (s1, j1, c) =>
      if c = '\\' then
        match memNext s1 j1 with
        | none => (s1, p, .exc)
        | some (s2, j2) =>
          match memValue s2 j2 with
          | none => (s2, p, .exc)
          | some c2 => scanLit p fuel s2 j2 (acc ++ ['\\', c2])
      else if string_quotes.contains c then (s1, j1, .tok ⟨.string_literal, String.mk acc⟩)
      else scanLit p fuel s1 j1 (acc ++ [c])

/-- Models `tokenize_string_literal`.  The first loop re-reads the current
character; a non-quote declines, a quote commits the parent and starts the
scan from `split(1)`.  (If the first loop's `next` already fails, Python
falls through to the scan loop, which then also finds nothing.) -/
def tokenize_string_literal (s : MemSt Char) (i : Int) : MemSt Char × Int × TokResult :=
  match memStep s (splitIdx i 0) with
  | none => scanLit i (s.src.length + 2) s (splitIdx i 1) []
  | some (s1, c1, ch) =>
    if string_quotes.contains ch then
      scanLit (update_parent c1 i) (s1.src.length + 2) s1 (splitIdx (update_parent c1 i) 1) []
    else (s1, i, .noMatch)

/-- Models `tokenize_whitespace`: one whitespace character per token. -/
def tokenize_whitespace (s : MemSt Char) (i : Int) : MemSt Char × Int × TokResult :=
  match memStep s (splitIdx i 0) with
  | none => (s, i, .noMatch)
  | some (s1, c1, ch) =>
    if isPyWhitespace ch then (s1, update_parent c1 i, .tok ⟨.whitespace, String.mk [ch]⟩)
    else (s1, i, .noMatch)

/-- The accumulation loop of `tokenize_operator`, bounded by
`operators_max_size` through `zip(range(operators_max_size), code.split())`. -/
def opLoop (p : Int) : Nat → MemSt Char → Int → List Char → MemSt Char × Int × TokResult
  | 0, s, _, _ => (s, p, .noMatch)
  | fuel + 1, s, j, acc =>
    match memStep s j with
    | none => (s, p, .noMatch)
    | some (s1, j1, c) =>
      if operators.contains (String.mk (acc ++ [c])) then
        (s1, update_parent j1 p, .tok ⟨.operator, String.mk (acc ++ [c])⟩)
      else opLoop p fuel s1 j1 (acc ++ [c])

/-- Models `tokenize_operator`. -/
def tokenize_operator (s : MemSt Char) (i : Int) : MemSt Char × Int × TokResult :=
  opLoop i operators_max_size s (splitIdx i 0) []

/-- Python's `re.match("[a-zA-Z_$]", c)`. -/
def isVarStart (c : Char) : Bool := c.isAlpha || c = '_' || c = '$'

/-- Python's `re.match(r"[a-zA-Z0-9$\_]", c)`. -/
def isVarChar (c : Char) : Bool := c.isAlphanum || c = '$' || c = '_'

/-- The accumulation loop of `tokenize_var_name` (its second `for`): keeps
consuming identifier characters; at the first non-matching character it
rewinds one and commits; if the input ends first, the loop exits and the
function returns `None`. -/
def varLoop (p : Int) : Nat → MemSt Char → Int → List Char → MemSt Char × Int × TokResult
  | 0, s, _, _ => (s, p, .noMatch)
  | fuel + 1, s, j, acc =>
    match memStep s j with
    | none => (s, p, .noMatch)
    | some (s1, j1, c) =>
      if isVarChar c then varLoop p fuel s1 j1 (acc ++ [c])
      else (s1, update_parent (go_back_by j1 1) p, .tok ⟨.var_name, String.mk acc⟩)

/-- Models `tokenize_var_name`.  The first loop re-reads the current
character and declines unless it matches the start class; on a match it
commits and the second loop re-reads from `split()` (so the first character
is consumed again into the accumulated name). -/
def tokenize_var_name (s : MemSt Char) (i : Int) : MemSt Char × Int × TokResult :=
  match memStep s (splitIdx i 0) with
  | none => varLoop i (s.src.length + 2) s (splitIdx i 0) []
  | some (s1, c1, ch) =>
    if isVarStart ch then
      varLoop (update_parent c1 i) (s1.src.length + 2) s1 (splitIdx (update_parent c1 i) 0) []
    else (s1, i, .noMatch)

/-- Models `tokenize_new_line`.  Note the source never calls
`update_parent` here, and the token value is the character read. -/
def tokenize_new_line (s : MemSt Char) (i : Int) : MemSt Char × Int × TokResult :=
  match memStep s (splitIdx i 0) with
  | none => (s, i, .noMatch)
  | some (s1, _, ch) =>
    if ch = '\n' then (s1, i, .tok ⟨.new_line, String.mk [ch]⟩)
    else (s1, i, .noMatch)

/-- Models `tokenize_unknown`: the fallback, one character. -/
def tokenize_unknown (s : MemSt Char) (i : Int) : MemSt Char × Int × TokResult :=
  match memStep s (splitIdx i 0) with
  | none => (s, i, .noMatch)
  | some (s1, _, ch) => (s1, i, .tok ⟨.unknown, String.mk [ch]⟩)

/-- The `tokenizers` registry, in `@register_tokenizer` decoration order:
string literal, whitespace, operator, var name, new line, unknown. -/
def tokenizers : List (MemSt Char → Int → MemSt Char × Int × TokResult) :=
  [tokenize_string_literal, tokenize_whitespace, tokenize_operator,
   tokenize_var_name, tokenize_new_line, tokenize_unknown]

/-- The inner loop of `tokenize`: try recognizers in order, taking the
first that does not decline. -/
def runTokenizers :
    List (MemSt Char → Int → MemSt Char × Int × TokResult) → MemSt Char → Int →
    MemSt Char × Int × TokResult
  | [], s, i => (s, i, .noMatch)
  | f :: fs, s, i =>
    match f s i with
    | (s', i', .noMatch) => runTokenizers fs s' i'
    | r => r

/-- The outer loop of the `tokenize` generator: advance one character, run
the recognizers, emit the winning token.  The Boolean records whether a
recognizer raised (PEP 479 turns the escaping `StopIteration` into a
`RuntimeError` of the generator). -/
def tokenizeLoop : Nat → MemSt Char → Int → List Token → List Token × Bool
  | 0, _, _, acc => (acc, false)
  | fuel + 1, s, i, acc =>
    match memStep s i with
    | none => (acc, false)
    | some (s1, i1, _) =>
      match runTokenizers tokenizers s1 i1 with
      | (s2, i2, .tok t) => tokenizeLoop fuel s2 i2 (acc ++ [t])
      | (s2, i2, .noMatch) => tokenizeLoop fuel s2 i2 acc
      | (_, _, .exc) => (acc, true)

/-- Runs `tokenize` over a whole source string, returning the tokens
yielded before the generator finished or raised, and whether it raised. -/
def tokenizeRun (code : String) : List Token × Bool :=
  tokenizeLoop (code.length + 2) ⟨code.data, 0⟩ (-1) []

/-- Models consuming the `tokenize` generator to the end: `some` tokens on
a clean finish, `none` when a recognizer raised. -/
def tokenize (code : String) : Option (List Token) :=
  match tokenizeRun code with
  | (toks, false) => some toks
  | (_, true) => none

/-!
Data types (`ast.py`, classes `DataType`, `Infer`, `Str`, `Void`,
`Function`).

An `Infer` instance owns a mutable `infered_type` cell written by its
`__eq__`; we give each instance a cell in an explicit `Heap` and refer to
it by index.  `Function.args` is an `OrderedDict` of name to
`VariableData`; we flatten each entry to (key, symbol, data type).
-/

inductive DType where
  | inferRef (r : Nat)
  | strT
  | voidT
  | funcT (c_fn_name : String) (args : List (String × String × DType)) (return_type : DType)
deriving Repr

mutual
/-- Dataclass `__eq__` between two `DataType` values of which neither is an
`Infer` (those are intercepted by `Infer.__eq__` before structural equality
is consulted, so the `inferRef` rows here are never reached and are mapped
to the identity-comparison fallback `false`).  Same class compares fields;
different classes fall back to identity, `false` for distinct objects. -/
def dtypeStructEq : DType → DType → Bool
  | .strT, .strT => true
  | .voidT, .voidT => true
  | .funcT n1 a1 r1, .funcT n2 a2 r2 =>
    n1 == n2 && argsStructEq a1 a2 && dtypeStructEq r1 r2
  | _, _ => false

/-- Ordered equality of two `Function.args` mappings (an `OrderedDict`
compared to an `OrderedDict` is order-sensitive in Python). -/
def argsStructEq : List (String × String × DType) → List (String × String × DType) → Bool
  | [], [] => true
  | (k1, s1, t1) :: xs, (k2, s2, t2) :: ys =>
    k1 == k2 && s1 == s2 && dtypeStructEq t1 t2 && argsStructEq xs ys
  | _, _ => false
end

/-- The store of `Infer` instances: cell `r` holds the `infered_type`
field of instance `r` (`none` = not yet inferred). -/
structure Heap where
  cells : List (Option DType)
deriving Repr

/-- Allocation of a fresh `Infer()` instance. -/
def Heap.alloc (h : Heap) : Heap × Nat :=
  ({ cells := h.cells ++ [none] }, h.cells.length)

/-- Python `a == b` on two `DataType`s.  `Infer.__eq__` intercepts (also on
the right via the reflected call when the left operand's dataclass
`__eq__` returns `NotImplemented`): it stores the other operand in
`infered_type` and answers `True`.  Otherwise structural equality. -/
def dtypeEq (h : Heap) (a b : DType) : Heap × Bool :=
  match a with
  | .inferRef r => (⟨h.cells.set r (some b)⟩, true)
  | _ =>
    match b with
    | .inferRef r => (⟨h.cells.set r (some a)⟩, true)
    | _ => (h, dtypeStructEq a b)

/-- Python `a != b` on two `DataType`s (negation of `==`; none of the
classes define `__ne__`). -/
def dtypeNe (h : Heap) (a b : DType) : Heap × Bool :=
  let (h', e) := dtypeEq h a b
  (h', !e)

/-- Models `final_type`: the identity on concrete types; on an `Infer` it
returns the inferred type, or `none` for the raised
`TypeError("No type was infered")` when the cell was never written. -/
def final_type (h : Heap) (t : DType) : Option DType :=
  match t with
  | .inferRef r =>
    match h.cells.get? r with
    | some (some u) => some u
    | _ => none
  | u => some u

/-- Models the `VariableData` dataclass.  Its objects are mutated only at
`ast.py` line 193 (`assignee.variable.data_type = ...`), a line shown
unreachable below, so values suffice; the embedding of that line still
updates the aliased `local_vars` entry explicitly. -/
structure VariableData where
  symbol : String
  data_type : DType
deriving Repr

/-- Models `AstContext`.  The two `dict`s become association lists in
insertion order. -/
structure AstContext where
  nonlocal_vars : List (String × VariableData) := []
  local_vars : List (String × VariableData) := []
  whitespace : Nat := 0
  module_name : String := "main"
deriving Repr

/-- `dict.get` on a scope map. -/
def lookupVar (m : List (String × VariableData)) (k : String) : Option VariableData :=
  (m.find? (fun p => p.1 == k)).map (fun p => p.2)

/-- `dict` item assignment for a key not yet present. -/
def insertVar (m : List (String × VariableData)) (k : String) (v : VariableData) :
    List (String × VariableData) :=
  m ++ [(k, v)]

/-- The module-level `std_globals` table: one binding, `printf`, a function
of one parameter `message: str` returning void, with C name `printf_t`. -/
def std_globals : List (String × VariableData) :=
  [("printf", ⟨"printf", .funcT "printf_t" [("message", "message", .strT)] .voidT⟩)]

/-!
AST nodes (`ast.py`, `Node` and its subclasses).  `Statement` carries a
`data_type` field whose dataclass default is a fresh `Infer()`; node
variants that are statements record theirs explicitly.
-/

inductive Node where
  | assignee (varData : VariableData) (token : Token) (is_declaration : Bool)
  | assignment (children : List Node) (data_type : DType)
  | string_lit (token : Token) (data_type : DType)
  | call_stmt (function : VariableData) (args : List (String × Option Node)) (data_type : DType)
  | block (children : List Node)
  | root (children : List Node)

/-- The `data_type` attribute of a parsed statement.  Only `assignment`,
`string_lit` and `call_stmt` nodes (the `Statement` instances) are ever
asked for it; the remaining rows are filler for totality. -/
def Node.data_type : Node → DType
  | .assignment _ dt => dt
  | .string_lit _ dt => dt
  | .call_stmt _ _ dt => dt
  | _ => .voidT

/-- The state threaded through every grammar rule: the `Infer` heap, the
shared `AstContext`, and the shared token buffer. -/
structure PState where
  heap : Heap
  ctx : AstContext
  mem : MemSt Token

/-- Result of a grammar rule: a node, `None`, or a propagating exception
(the `TypeError` of `final_type`, or `StopIteration` from the raw `next`
over `islice` in `CallStatement.parse`). -/
inductive PRes where
  | ok (n : Option Node)
  | exc

/-- The operator scan of `Assignment.parse` (`for token in tokens.split(1)`
looking for `=` across whitespace).  Returns the new buffer, the parent
index (committed to the operator's position on success), and whether the
operator was found. -/
def opScan : Nat → MemSt Token → Int → Int → MemSt Token × Int × Bool
  | 0, m, _, p => (m, p, false)
  | fuel + 1, m, j, p =>
    match memStep m j with
    | none => (m, p, false)
    | some (m1, j1, t) =>
      if t.type = .operator ∧ t.value = "=" then (m1, update_parent j1 p, true)
      else if t.type ≠ .whitespace then (m1, p, false)
      else opScan fuel m1 j1 p

/-- The whitespace skip of `Assignment.parse` (`for token in
tokens.split(1)` that `continue`s over whitespace, then rewinds one and
commits).  If the loop runs off the end the parent is left unchanged. -/
def wsSkip : Nat → MemSt Token → Int → Int → MemSt Token × Int
  | 0, m, _, p => (m, p)
  | fuel + 1, m, j, p =>
    match memStep m j with
    | none => (m, p)
    | some (m1, j1, t) =>
      if t.type = .whitespace then wsSkip fuel m1 j1 p
      else (m1, update_parent (go_back_by j1 1) p)

/-- Models `Assignee.parse`: a single identifier token; reuses the
`local_vars` binding when present, else a fresh binding with a fresh
`Infer` type (the `VariableData(symbol, data_type=Infer())` object is
allocated before the lookup result replaces it, so the heap always grows). -/
def Assignee.parse (st : PState) (i : Int) : PState × Int × Option Node :=
  match memStep st.mem (splitIdx i 0) with
  | none => (st, i, none)
  | some (m1, c1, t) =>
    if t.type = .var_name then
      let symbol := t.value
      let is_declaration := (lookupVar st.ctx.local_vars symbol).isNone
      let (h1, r) := st.heap.alloc
      let varData : VariableData :=
        match lookupVar st.ctx.local_vars symbol with
        | some v => v
        | none => ⟨symbol, .inferRef r⟩
      ({ st with heap := h1, mem := m1 }, update_parent c1 i,
        some (.assignee varData t is_declaration))
    else ({ st with mem := m1 }, i, none)

/-- Models `StringLiteral.parse`: a single string-literal token; the node's
`data_type` dataclass default is `Str()`. -/
def StringLiteral.parse (st : PState) (i : Int) : PState × Int × Option Node :=
  match memStep st.mem (splitIdx i 0) with
  | none => (st, i, none)
  | some (m1, c1, t) =>
    if t.type = .string_literal then
      ({ st with mem := m1 }, update_parent c1 i, some (.string_lit t .strT))
    else ({ st with mem := m1 }, i, none)

/-- Outcome of the two skip-to-delimiter loops of `CallStatement.parse`. -/
inductive ScanOut where
  | committed (p : Int)
  | declined
  | exhausted
deriving Repr

/-- The opening-parenthesis scan of `CallStatement.parse`. -/
def parenScan : Nat → MemSt Token → Int → MemSt Token × ScanOut
  | 0, m, _ => (m, .exhausted)
  | fuel + 1, m, j =>
    match memStep m j with
    | none => (m, .exhausted)
    | some (m1, j1, t) =>
      if t.type = .whitespace then parenScan fuel m1 j1
      else if t.value = "(" then (m1, .committed (update_parent j1 0))
      else (m1, .declined)

/-- Outcome of the argument-separator scan of `CallStatement.parse`. -/
inductive SepOut where
  | comma (p : Int)
  | close (p : Int)
  | exhausted
deriving Repr

/-- The separator scan after an argument: whitespace `continue`s, `,`
commits and moves to the next parameter, `)` commits the whole call; any
other token is simply skipped by the loop (no `else` branch in the
source); running off the end returns to the argument loop. -/
def sepScan : Nat → MemSt Token → Int → MemSt Token × SepOut
  | 0, m, _ => (m, .exhausted)
  | fuel + 1, m, j =>
    match memStep m j with
    | none => (m, .exhausted)
    | some (m1, j1, t) =>
      if t.type = .whitespace then sepScan fuel m1 j1
      else if t.value = "," then (m1, .comma (update_parent j1 0))
      else if t.value = ")" then (m1, .close (update_parent j1 0))
      else sepScan fuel m1 j1

/-- `dict` item assignment `args[k] = v` (update in place, append if new). -/
def setArg (args : List (String × Option Node)) (k : String) (v : Option Node) :
    List (String × Option Node) :=
  if args.any (fun p => p.1 == k) then
    args.map (fun p => if p.1 == k then (p.1, v) else p)
  else args ++ [(k, v)]

mutual

/-- Models `Statement.parse`: dispatch over `standalone_subclasses`, which
class-definition order populates with `Assignment` (ast.py line 171) and
then `ValueStatement` (line 236, also declared `standalone = True`);
the first non-`None` result wins. -/
def Statement.parse : Nat → PState → Int → PState × Int × PRes
  | 0, st, i => (st, i, .ok none)
  | fuel + 1, st, i =>
    match Assignment.parse fuel st i with
    | (st1, i1, .ok none) => ValueStatement.parse fuel st1 i1
    | r => r

/-- Models `Assignment.parse`: assignee, then `=` across whitespace, then a
whitespace skip, then a value statement; on success the types are compared
(with `Infer` unification as a side effect), the assignee's type is
finalized, and a new symbol is registered in `local_vars`. -/
def Assignment.parse : Nat → PState → Int → PState × Int × PRes
  | 0, st, i => (st, i, .ok none)
  | fuel + 1, st, i =>
    match memNext st.mem (splitIdx i 0) with
    | none => (st, i, .ok none)
    | some (m0, c0) =>
      match Assignee.parse { st with mem := m0 } c0 with
      | (st1, _, none) => (st1, i, .ok none)
      | (st1, c1, some anode) =>
        match opScan (st1.mem.src.length + 2) st1.mem (splitIdx c1 1) c1 with
        | (m2, _, false) => ({ st1 with mem := m2 }, i, .ok none)
        | (m2, c2, true) =>
          let (m3, c3) := wsSkip (m2.src.length + 2) m2 (splitIdx c2 1) c2
          match ValueStatement.parse fuel { st1 with mem := m3 } c3 with
          | (st4, _, .exc) => (st4, i, .exc)
          | (st4, _, .ok none) => (st4, i, .ok none)
          | (st4, c4, .ok (some vnode)) =>
            match anode with
            | .assignee varData tok isDecl =>
              let (h5, ne) := dtypeNe st4.heap varData.data_type vnode.data_type
              if ne then ({ st4 with heap := h5 }, i, .ok none)
              else
                match final_type h5 varData.data_type with
                | none => ({ st4 with heap := h5 }, i, .exc)
                | some ft =>
                  let varData' : VariableData := { varData with data_type := ft }
                  let locals5 :=
                    if isDecl then st4.ctx.local_vars
                    else st4.ctx.local_vars.map
                      (fun p => if p.1 == varData.symbol then (p.1, varData') else p)
                  let locals6 :=
                    if (lookupVar locals5 varData.symbol).isNone then
                      insertVar locals5 varData.symbol varData'
                    else locals5
                  let (h6, rInfer) := Heap.alloc ⟨h5.cells⟩
                  ({ heap := h6, ctx := { st4.ctx with local_vars := locals6 },
                     mem := st4.mem },
                   update_parent c4 i,
                   .ok (some (.assignment [.assignee varData' tok isDecl, vnode]
                     (.inferRef rInfer))))
            | _ => (st4, i, .ok none)

/-- Models `ValueStatement.parse`: dispatch over `sub_classes`, populated
in class-definition order with `StringLiteral` (ast.py line 251) then
`CallStatement` (line 267). -/
def ValueStatement.parse : Nat → PState → Int → PState × Int × PRes
  | 0, st, i => (st, i, .ok none)
  | fuel + 1, st, i =>
    match StringLiteral.parse st i with
    | (st1, i1, some n) => (st1, i1, .ok (some n))
    | (st1, _, none) => CallStatement.parse fuel st1 i

/-- Models `CallStatement.parse`: an identifier resolvable in `local_vars`
then `nonlocal_vars` and bound to a `Function`, an opening parenthesis,
then the positional argument loop. -/
def CallStatement.parse : Nat → PState → Int → PState × Int × PRes
  | 0, st, i => (st, i, .ok none)
  | fuel + 1, st, i =>
    match memStep st.mem (splitIdx i 0) with
    | none => (st, i, .ok none)
    | some (m1, c1, t) =>
      if t.type ≠ .var_name then ({ st with mem := m1 }, i, .ok none)
      else
        match (lookupVar st.ctx.local_vars t.value).orElse
            (fun _ => lookupVar st.ctx.nonlocal_vars t.value) with
        | none => ({ st with mem := m1 }, i, .ok none)
        | some vdata =>
          match vdata.data_type with
          | .funcT _ fargs _ =>
            let args0 : List (String × Option Node) := fargs.map (fun a => (a.1, none))
            match parenScan (m1.src.length + 2) m1 (splitIdx c1 1) with
            | (m2, .declined) => ({ st with mem := m2 }, i, .ok none)
            | (m2, .exhausted) =>
              -- the "(" loop ran off the end without matching; the argument
              -- loop is entered from the unmoved cursor and also runs off
              argLoop fuel { st with mem := m2 } (splitIdx c1 1) i vdata fargs args0 0
            | (m2, .committed cp) =>
              argLoop fuel { st with mem := m2 } (splitIdx cp 1) i vdata fargs args0 0
          | _ => ({ st with mem := m1 }, i, .ok none)

/-- The argument loop of `CallStatement.parse` (`for tok in
token.split(1)`): skip whitespace, parse a `Statement` as the argument,
require its type to equal the parameter's (a raw `next` over `islice`
raises `StopIteration` when the arguments outnumber the parameters), then
scan for `,` or `)`.  Running off the end returns `None`; `)` commits and
builds the node (whose `data_type` dataclass default allocates a fresh
`Infer`). -/
def argLoop : Nat → PState → Int → Int → VariableData →
    List (String × String × DType) → List (String × Option Node) → Nat →
    PState × Int × PRes
  | 0, st, _, pI, _, _, _, _ => (st, pI, .ok none)
  | fuel + 1, st, j, pI, vdata, fargs, args, argI =>
    match memStep st.mem j with
    | none => (st, pI, .ok none)
    | some (m1, j1, t) =>
      if t.type = .whitespace then
        argLoop fuel { st with mem := m1 } j1 pI vdata fargs args argI
      else
        match Statement.parse fuel { st with mem := m1 } j1 with
        | (st2, _, .exc) => (st2, pI, .exc)
        | (st2, _, .ok none) => (st2, pI, .ok none)
        | (st2, j2, .ok (some argNode)) =>
          match fargs.get? argI with
          | none => (st2, pI, .exc)
          | some (_, symArg, dtArg) =>
            let (h3, ne) := dtypeNe st2.heap dtArg argNode.data_type
            if ne then ({ st2 with heap := h3 }, pI, .ok none)
            else
              let args' := setArg args symArg (some argNode)
              match sepScan (st2.mem.src.length + 2) st2.mem (splitIdx j2 1) with
              | (m4, .comma k1) =>
                argLoop fuel { st2 with heap := h3, mem := m4 } k1 pI vdata fargs args' (argI + 1)
              | (m4, .close k1) =>
                let (h5, rInfer) := Heap.alloc ⟨h3.cells⟩
                ({ st2 with heap := h5, mem := m4 }, update_parent k1 pI,
                  .ok (some (.call_stmt vdata args' (.inferRef rInfer))))
              | (m4, .exhausted) =>
                argLoop fuel { st2 with heap := h3, mem := m4 } j2 pI vdata fargs args' argI

end

/-- The leading-whitespace measurement of `Block.parse` (`for tok in
token.split()`): counts whitespace tokens, sets the no-statement flag and
commits at a new-line token, rewinds one and commits at anything else. -/
def wsCount : Nat → MemSt Token → Int → Int → Nat → MemSt Token × Int × Nat × Bool
  | 0, m, _, p, cnt => (m, p, cnt, false)
  | fuel + 1, m, j, p, cnt =>
    match memStep m j with
    | none => (m, p, cnt, false)
    | some (m1, j1, t) =>
      if t.type = .new_line then (m1, update_parent j1 p, cnt, true)
      else if t.type ≠ .whitespace then (m1, update_parent (go_back_by j1 1) p, cnt, false)
      else wsCount fuel m1 j1 p (cnt + 1)

/-- The trailing check of `Block.parse` after a statement fails to parse:
`some` with the resulting parent index when the loop reaches a new line or
the end (the outer loop then continues), `none` when a non-whitespace
token makes the whole block fail. -/
def trailScan : Nat → MemSt Token → Int → Int → MemSt Token × Option Int
  | 0, m, _, p => (m, some p)
  | fuel + 1, m, j, p =>
    match memStep m j with
    | none => (m, some p)
    | some (m1, j1, t) =>
      if t.type = .new_line then (m1, some (update_parent j1 p))
      else if t.type ≠ .whitespace then (m1, none)
      else trailScan fuel m1 j1 p

/-- The main loop of `Block.parse` over logical lines.  A `)` token or an
indentation mismatch returns `None` (a bare `return` in the source);
reaching the end of the tokens returns the block built so far. -/
def blockLoop : Nat → PState → Int → List Node → PState × Int × PRes
  | 0, st, i, acc => (st, i, .ok (some (.block acc)))
  | fuel + 1, st, i, acc =>
    match memStep st.mem i with
    | none => (st, i, .ok (some (.block acc)))
    | some (m1, i1, t) =>
      if t.value = ")" then ({ st with mem := m1 }, i1, .ok none)
      else
        match wsCount (m1.src.length + 2) m1 (splitIdx i1 0) i1 0 with
        | (m2, i2, _, true) => blockLoop fuel { st with mem := m2 } i2 acc
        | (m2, i2, cnt, false) =>
          if st.ctx.whitespace ≠ cnt then ({ st with mem := m2 }, i2, .ok none)
          else
            match Statement.parse fuel { st with mem := m2 } i2 with
            | (st3, i3, .exc) => (st3, i3, .exc)
            | (st3, i3, .ok (some n)) => blockLoop fuel st3 i3 (acc ++ [n])
            | (st3, i3, .ok none) =>
              match trailScan (st3.mem.src.length + 2) st3.mem (splitIdx i3 0) i3 with
              | (m4, some i4) => blockLoop fuel { st3 with mem := m4 } i4 acc
              | (m4, none) => ({ st3 with mem := m4 }, i3, .ok none)

/-- Models `Block.parse`. -/
def Block.parse (fuel : Nat) (st : PState) (i : Int) : PState × Int × PRes :=
  blockLoop fuel st i []

/-- Models `Root.parse`: seed `nonlocal_vars` with `std_globals` when the
module is `main`, then parse a block (the `self = cls()` of `Block.parse`
instantiates a `Root`, so the resulting node is re-tagged). -/
def Root.parse (fuel : Nat) (st : PState) (i : Int) : PState × Int × PRes :=
  let ctx' :=
    if st.ctx.module_name = "main" then { st.ctx with nonlocal_vars := std_globals }
    else st.ctx
  match Block.parse fuel { st with ctx := ctx' } i with
  | (st', i', .ok (some (.block cs))) => (st', i', .ok (some (.root cs)))
  | r => r

/-- Outcome of the whole pipeline: an uncaught exception, a `None` result,
or a parsed root. -/
inductive Outcome where
  | raised
  | failed
  | ok (n : Node)

/-- Models the top-level `parse(source)`: tokenize, then `Root.parse` over
a fresh cursor with a fresh default `AstContext`.  Tokens are pulled
lazily in Python; an exception of the generator surfaces at the pull, here
folded into `.raised` (none of the evaluated inputs tokenize with an
exception). -/
def parse (source : String) : Outcome :=
  match tokenize source with
  | none => .raised
  | some toks =>
    match Root.parse ((toks.length + 4) * (toks.length + 4) + 16)
        ⟨⟨[]⟩, {}, ⟨toks, 0⟩⟩ (-1) with
    | (_, _, .exc) => .raised
    | (_, _, .ok none) => .failed
    | (_, _, .ok (some n)) => .ok n

/-!
Supporting lemmas about the cursor model.
-/

lemma memValue_nonneg {T} {s : MemSt T} {i : Int} {v : T} (h : memValue s i = some v) :
    0 ≤ i ∧ i < (s.pulled : Int) := by
  by_cases hc : 0 ≤ i ∧ i < (s.pulled : Int)
  · exact hc
  · rw [memValue, if_neg hc] at h
    cases h

lemma memValue_mono {T} {s s' : MemSt T} (hsrc : s'.src = s.src) (hp : s.pulled ≤ s'.pulled)
    {i : Int} {v : T} (h : memValue s i = some v) : memValue s' i = some v := by
  obtain ⟨h0, h1⟩ := memValue_nonneg h
  rw [memValue, if_pos ⟨h0, h1⟩] at h
  rw [memValue, if_pos ⟨h0, by omega⟩, hsrc]
  exact h

lemma memNext_out {T} {s s' : MemSt T} {i i' : Int} (h : memNext s i = some (s', i')) :
    s'.src = s.src ∧ s.pulled ≤ s'.pulled ∧ i' = i + 1 := by
  rw [memNext] at h
  split at h
  · simp only [Option.some.injEq, Prod.mk.injEq] at h
    obtain ⟨h1, h2⟩ := h
    subst h1; subst h2
    exact ⟨rfl, le_refl _, rfl⟩
  · split at h
    · simp only [Option.some.injEq, Prod.mk.injEq] at h
      obtain ⟨h1, h2⟩ := h
      subst h1; subst h2
      exact ⟨rfl, Nat.le_succ _, rfl⟩
    · cases h

lemma memStep_out {T} {s s' : MemSt T} {i i' : Int} {v : T}
    (h : memStep s i = some (s', i', v)) :
    s'.src = s.src ∧ s.pulled ≤ s'.pulled ∧ i' = i + 1 ∧ memValue s' i' = some v := by
  rw [memStep] at h
  rcases hn : memNext s i with _ | ⟨s1, i1⟩
  · simp only [hn] at h
    exact Option.noConfusion h
  · simp only [hn] at h
    rcases hv : memValue s1 i1 with _ | w
    · simp only [hv] at h
      exact Option.noConfusion h
    · simp only [hv, Option.some.injEq, Prod.mk.injEq] at h
      obtain ⟨h1, h2, h3⟩ := h
      subst h1; subst h2; subst h3
      obtain ⟨g1, g2, g3⟩ := memNext_out hn
      exact ⟨g1, g2, g3, hv⟩

/-- A step taken from the position one before an already-buffered value
re-reads that value without touching the shared state. -/
lemma memStep_at {T} {s : MemSt T} {i : Int} {v : T} (h : memValue s i = some v) :
    memStep s (i - 1) = some (s, i, v) := by
  obtain ⟨h0, h1⟩ := memValue_nonneg h
  have hn : memNext s (i - 1) = some (s, i) := by
    rw [memNext]
    have e : i - 1 + 1 = i := by ring
    rw [e, if_pos h1]
  rw [memStep]
  simp only [hn, h]

lemma get?_append_cons {α} (pre post : List α) (a : α) :
    (pre ++ a :: post).get? pre.length = some a := by
  induction pre with
  | nil => rfl
  | cons b l ih => simpa using ih

lemma get?_concat {α} (l : List α) (a : α) : (l ++ [a]).get? l.length = some a := by
  induction l with
  | nil => rfl
  | cons b l ih => simpa using ih

lemma get?_set_concat {α} (l : List α) (a x : α) :
    ((l ++ [a]).set l.length x).get? l.length = some x := by
  induction l with
  | nil => rfl
  | cons b l ih => simpa using ih

/-- A step taken at the frontier of the buffer pulls the next source
element. -/
lemma memStep_pull {T} (pre : List T) (a : T) (post : List T) :
    memStep (⟨pre ++ a :: post, pre.length⟩ : MemSt T) ((pre.length : Int) - 1) =
      some (⟨pre ++ a :: post, pre.length + 1⟩, (pre.length : Int), a) := by
  have e : (pre.length : Int) - 1 + 1 = (pre.length : Int) := by ring
  have hlen : pre.length < (pre ++ a :: post).length := by
    simp [List.length_append]
  have hn : memNext (⟨pre ++ a :: post, pre.length⟩ : MemSt T) ((pre.length : Int) - 1) =
      some (⟨pre ++ a :: post, pre.length + 1⟩, (pre.length : Int)) := by
    rw [memNext]
    simp only [e]
    rw [if_neg (lt_irrefl _), if_pos hlen]
  have hv : memValue (⟨pre ++ a :: post, pre.length + 1⟩ : MemSt T) (pre.length : Int) =
      some a := by
    rw [memValue,
      if_pos ⟨Int.natCast_nonneg _,
        by show (pre.length : Int) < ((pre.length + 1 : Nat) : Int); omega⟩]
    simp only [Int.toNat_natCast]
    exact get?_append_cons pre post a
  rw [memStep]
  simp only [hn, hv]

/-- The raw `next(char)` taken right after a backslash was pulled at the
buffer frontier pulls one more element. -/
lemma memNext_esc {T} (pre : List T) (a b : T) (tail : List T) :
    memNext (⟨pre ++ a :: b :: tail, pre.length + 1⟩ : MemSt T) ((pre.length : Int)) =
      some (⟨pre ++ a :: b :: tail, pre.length + 2⟩, ((pre.length + 1 : Nat) : Int)) := by
  have h1 : ¬ ((pre.length : Int) + 1 < ((pre.length + 1 : Nat) : Int)) := by
    push_cast
    omega
  have h2 : pre.length + 1 < (pre ++ a :: b :: tail).length := by
    simp [List.length_append]
  rw [memNext, if_neg h1, if_pos h2]
  rfl

/-- Reading the value right after that second pull yields the escaped
character. -/
lemma memValue_esc {T} (pre : List T) (a b : T) (tail : List T) :
    memValue (⟨pre ++ a :: b :: tail, pre.length + 2⟩ : MemSt T)
        ((pre.length + 1 : Nat) : Int) = some b := by
  have h1 : (0 : Int) ≤ ((pre.length + 1 : Nat) : Int) := Int.natCast_nonneg _
  have h2 : ((pre.length + 1 : Nat) : Int) < ((pre.length + 2 : Nat) : Int) := by
    push_cast
    omega
  rw [memValue, if_pos ⟨h1, h2⟩]
  simp only [Int.toNat_natCast]
  have e : pre ++ a :: b :: tail = (pre ++ [a]) ++ b :: tail := by simp
  rw [e]
  have el : pre.length + 1 = (pre ++ [a]).length := by simp
  rw [el]
  exact get?_append_cons (pre ++ [a]) tail b

lemma quotes_ne_backslash {c : Char} (h : string_quotes.contains c = true) : c ≠ '\\' := by
  intro he
  subst he
  exact absurd h (by decide)

lemma splitIdx_zero {i : Int} (h : 0 ≤ i) : splitIdx i 0 = i - 1 := by
  rw [splitIdx]
  have e : i - 1 + 0 = i - 1 := by ring
  rw [e]
  exact max_eq_right (by omega)

lemma splitIdx_one {i : Int} (h : 0 ≤ i) : splitIdx i 1 = i := by
  rw [splitIdx]
  have e : i - 1 + 1 = i := by ring
  rw [e]
  exact max_eq_right (by omega)

/-- The cursor's current token exists and is an operator or whitespace
token: the configuration in which `ValueStatement.parse` is always entered
from `Assignment.parse`. -/
def HasOpWs (m : MemSt Token) (i : Int) : Prop :=
  ∃ t : Token, memValue m i = some t ∧ (t.type = .operator ∨ t.type = .whitespace)

lemma hasOpWs_mono {m m' : MemSt Token} (hsrc : m'.src = m.src) (hp : m.pulled ≤ m'.pulled)
    {i : Int} (h : HasOpWs m i) : HasOpWs m' i := by
  obtain ⟨t, hv, ht⟩ := h
  exact ⟨t, memValue_mono hsrc hp hv, ht⟩

/-- When the operator scan of `Assignment.parse` reports success, the
committed parent position holds the operator token. -/
lemma opScan_found :
    ∀ (fuel : Nat) (m : MemSt Token) (j p : Int) (m2 : MemSt Token) (c2 : Int),
      opScan fuel m j p = (m2, c2, true) → HasOpWs m2 c2 := by
  intro fuel
  induction fuel with
  | zero =>
    intro m j p m2 c2 h
    simp only [opScan] at h
    simp at h
  | succ fuel ih =>
    intro m j p m2 c2 h
    simp only [opScan] at h
    rcases hs : memStep m j with _ | ⟨m1, j1, t⟩
    · rw [hs] at h; simp at h
    · simp only [hs] at h
      by_cases h1 : t.type = .operator ∧ t.value = "="
      · rw [if_pos h1] at h
        simp only [update_parent, Prod.mk.injEq] at h
        obtain ⟨e1, e2, _⟩ := h
        subst e1; subst e2
        exact ⟨t, (memStep_out hs).2.2.2, Or.inl h1.1⟩
      · rw [if_neg h1] at h
        by_cases h2 : t.type ≠ .whitespace
        · rw [if_pos h2] at h; simp at h
        · rw [if_neg h2] at h
          exact ih _ _ _ _ _ h

/-- The whitespace skip of `Assignment.parse` started just past an
operator-or-whitespace position, over whitespace, lands on an
operator-or-whitespace position. -/
lemma wsSkip_opws :
    ∀ (fuel : Nat) (m : MemSt Token) (j p : Int),
      0 ≤ p → p ≤ j → HasOpWs m p →
      (∀ k : Int, p < k → k ≤ j → ∃ t : Token, memValue m k = some t ∧ t.type = .whitespace) →
      HasOpWs (wsSkip fuel m j p).1 (wsSkip fuel m j p).2 := by
  intro fuel
  induction fuel with
  | zero =>
    intro m j p h0 hpj hP hR
    simp only [wsSkip]
    exact hP
  | succ fuel ih =>
    intro m j p h0 hpj hP hR
    simp only [wsSkip]
    rcases hs : memStep m j with _ | ⟨m1, j1, t⟩
    · simp only [hs]
      exact hP
    · simp only [hs]
      obtain ⟨hsrc, hp, hj1, hv⟩ := memStep_out hs
      by_cases hw : t.type = .whitespace
      · rw [if_pos hw]
        apply ih m1 j1 p h0 (by omega) (hasOpWs_mono hsrc hp hP)
        intro k hk1 hk2
        by_cases hkj : k ≤ j
        · obtain ⟨u, hu, hut⟩ := hR k hk1 hkj
          exact ⟨u, memValue_mono hsrc hp hu, hut⟩
        · have : k = j1 := by omega
          subst this
          exact ⟨t, hv, hw⟩
      · rw [if_neg hw]
        have hgb : go_back_by j1 1 = j := by
          rw [go_back_by]
          have e : j1 - 1 = j := by omega
          rw [e]
          exact max_eq_right (by omega)
        simp only [update_parent, hgb]
        by_cases hpj' : p = j
        · subst hpj'
          exact hasOpWs_mono hsrc hp hP
        · have hlt : p < j := lt_of_le_of_ne hpj hpj'
          obtain ⟨u, hu, hut⟩ := hR j hlt (le_refl j)
          exact ⟨u, memValue_mono hsrc hp hu, Or.inr hut⟩

/-- `CallStatement.parse` declines immediately when the current token is
an operator or whitespace token. -/
lemma callStatement_fails_at_opws :
    ∀ (fuel : Nat) (st : PState) (i : Int), HasOpWs st.mem i →
      CallStatement.parse fuel st i = (st, i, .ok none) := by
  intro fuel st i hP
  obtain ⟨t, hv, ht⟩ := hP
  obtain ⟨h0, _⟩ := memValue_nonneg hv
  cases fuel with
  | zero => rfl
  | succ fuel =>
    simp only [CallStatement.parse]
    rw [splitIdx_zero h0]
    have hne : t.type ≠ .var_name := by
      rcases ht with h | h <;> rw [h] <;> decide
    simp only [memStep_at hv, if_pos hne]

/-- `ValueStatement.parse` declines when the current token is an operator
or whitespace token (neither `StringLiteral` nor `CallStatement` accepts
it), leaving the state untouched. -/
lemma valueStatement_fails_at_opws :
    ∀ (fuel : Nat) (st : PState) (i : Int), HasOpWs st.mem i →
      ValueStatement.parse fuel st i = (st, i, .ok none) := by
  intro fuel st i hP
  obtain ⟨t, hv, ht⟩ := hP
  obtain ⟨h0, _⟩ := memValue_nonneg hv
  cases fuel with
  | zero => rfl
  | succ fuel =>
    simp only [ValueStatement.parse]
    have hSL : StringLiteral.parse st i = (st, i, none) := by
      simp only [StringLiteral.parse]
      rw [splitIdx_zero h0]
      have hne : ¬ t.type = .string_literal := by
        rcases ht with h | h <;> rw [h] <;> decide
      simp only [memStep_at hv, if_neg hne]
    simp only [hSL]
    exact callStatement_fails_at_opws fuel st i ⟨t, hv, ht⟩

/-- `Assignee.parse` never touches the context. -/
lemma assignee_parse_ctx (st : PState) (i : Int) : (Assignee.parse st i).1.ctx = st.ctx := by
  simp only [Assignee.parse]
  rcases hs : memStep st.mem (splitIdx i 0) with _ | ⟨m1, c1, t⟩
  · simp only [hs]
  · simp only [hs]
    by_cases h : t.type = .var_name
    · rw [if_pos h]
    · rw [if_neg h]

lemma advanceN_mle {T} :
    ∀ (n : Nat) (s : MemSt T) (i : Int),
      (advanceN s i n).1.src = s.src ∧ s.pulled ≤ (advanceN s i n).1.pulled := by
  intro n
  induction n with
  | zero => intro s i; exact ⟨rfl, le_refl _⟩
  | succ n ih =>
    intro s i
    simp only [advanceN]
    rcases hN : memNext s i with _ | ⟨s', i'⟩
    · simp [hN]
    · obtain ⟨h1, h2, _⟩ := memNext_out hN
      obtain ⟨g1, g2⟩ := ih s' i'
      exact ⟨by show (advanceN s' i' n).1.src = s.src; rw [g1, h1],
        le_trans h2 g2⟩

/-- A recognizer result that is a token or a decline (never a raised
exception). -/
def TokOrNoMatch (r : TokResult) : Prop := r = .noMatch ∨ ∃ t : Token, r = .tok t

lemma opLoop_tok_or_noMatch :
    ∀ (fuel : Nat) (p : Int) (s : MemSt Char) (j : Int) (acc : List Char),
      TokOrNoMatch (opLoop p fuel s j acc).2.2 := by
  intro fuel
  induction fuel with
  | zero => intro p s j acc; exact Or.inl rfl
  | succ fuel ih =>
    intro p s j acc
    simp only [opLoop]
    rcases hs : memStep s j with _ | ⟨s1, j1, c⟩
    · exact Or.inl rfl
    · simp only [hs]
      by_cases hc : operators.contains (String.mk (acc ++ [c])) = true
      · rw [if_pos hc]
        exact Or.inr ⟨⟨.operator, String.mk (acc ++ [c])⟩, rfl⟩
      · rw [if_neg hc]
        exact ih p s1 j1 (acc ++ [c])

lemma varLoop_tok_or_noMatch :
    ∀ (fuel : Nat) (p : Int) (s : MemSt Char) (j : Int) (acc : List Char),
      TokOrNoMatch (varLoop p fuel s j acc).2.2 := by
  intro fuel
  induction fuel with
  | zero => intro p s j acc; exact Or.inl rfl
  | succ fuel ih =>
    intro p s j acc
    simp only [varLoop]
    rcases hs : memStep s j with _ | ⟨s1, j1, c⟩
    · exact Or.inl rfl
    · simp only [hs]
      by_cases hc : isVarChar c = true
      · rw [if_pos hc]
        exact ih p s1 j1 (acc ++ [c])
      · rw [if_neg hc]
        exact Or.inr ⟨⟨.var_name, String.mk acc⟩, rfl⟩

/-- A piece of a string-literal body between the opening and the closing
quote: an ordinary character, or a backslash escape pair (a backslash
followed by ANY character, quote characters included). -/
inductive LitPiece where
  | ord (c : Char)
  | esc (c : Char)
deriving DecidableEq, Repr

/-- The source characters a body spells; by the verbatim-escape rule these
are also exactly the characters the scanner copies into the token text. -/
def litChars : List LitPiece → List Char
  | [] => []
  | .ord c :: ps => c :: litChars ps
  | .esc c :: ps => '\\' :: c :: litChars ps

/-- An ordinary character must not itself be a quote or a backslash (those
trigger termination and escaping respectively); an escaped character is
unconstrained — in particular it may be a quote. -/
def LitPiece.ok : LitPiece → Prop
  | .ord c => string_quotes.contains c = false ∧ c ≠ '\\'
  | .esc _ => True

instance (pc : LitPiece) : Decidable pc.ok :=
  match pc with
  | .ord c => inferInstanceAs (Decidable (string_quotes.contains c = false ∧ c ≠ '\\'))
  | .esc _ => inferInstanceAs (Decidable True)

/-- The string-literal scan over a body of ordinary characters and
verbatim backslash-escape pairs, ending at an unescaped quote: each
piece's characters are copied verbatim into the accumulated text (so an
escaped quote does not close the literal), the scan commits to the
closing quote's position, and the closing quote is excluded from the
text. -/
lemma scanLit_pieces :
    ∀ (body : List LitPiece) (pre post : List Char) (q' : Char) (acc : List Char)
      (p : Int) (fuel : Nat),
      string_quotes.contains q' = true → q' ≠ '\\' →
      (∀ pc ∈ body, pc.ok) →
      (litChars body).length + 1 ≤ fuel →
      scanLit p fuel ⟨pre ++ (litChars body ++ q' :: post), pre.length⟩
          ((pre.length : Int) - 1) acc =
        (⟨pre ++ (litChars body ++ q' :: post), (pre ++ litChars body).length + 1⟩,
          (((pre ++ litChars body).length : Nat) : Int),
          .tok ⟨.string_literal, String.mk (acc ++ litChars body)⟩) := by
  intro body
  induction body with
  | nil =>
    intro pre post q' acc p fuel hq hqb hbody hf
    simp only [litChars, List.length_nil, List.nil_append, List.append_nil] at hf ⊢
    cases fuel with
    | zero => simp at hf
    | succ fuel =>
      simp only [scanLit]
      simp only [memStep_pull pre q' post]
      rw [if_neg hqb, if_pos hq]
  | cons pc body ih =>
    cases pc with
    | ord c =>
      intro pre post q' acc p fuel hq hqb hbody hf
      have hc : string_quotes.contains c = false ∧ c ≠ '\\' :=
        hbody (.ord c) (by simp)
      simp only [litChars] at hf ⊢
      cases fuel with
      | zero => simp [List.length_cons] at hf
      | succ fuel =>
        simp only [List.cons_append]
        simp only [scanLit]
        simp only [memStep_pull pre c (litChars body ++ q' :: post)]
        rw [if_neg hc.2, if_neg (by rw [hc.1]; exact Bool.false_ne_true)]
        have H := ih (pre ++ [c]) post q' (acc ++ [c]) p fuel hq hqb
          (fun d hd => hbody d (List.mem_cons_of_mem _ hd))
          (by simp only [List.length_cons] at hf; omega)
        simp only [List.append_assoc, List.singleton_append, List.length_append,
          List.length_singleton, Nat.cast_add, Nat.cast_one, add_sub_cancel_right] at H ⊢
        exact H
    | esc c =>
      intro pre post q' acc p fuel hq hqb hbody hf
      simp only [litChars] at hf ⊢
      cases fuel with
      | zero => simp [List.length_cons] at hf
      | succ fuel =>
        simp only [List.cons_append]
        simp only [scanLit]
        simp only [memStep_pull pre '\\' (c :: (litChars body ++ q' :: post))]
        rw [if_pos trivial]
        simp only [memNext_esc pre '\\' c (litChars body ++ q' :: post),
          memValue_esc pre '\\' c (litChars body ++ q' :: post)]
        have H := ih (pre ++ ['\\', c]) post q' (acc ++ ['\\', c]) p fuel hq hqb
          (fun d hd => hbody d (List.mem_cons_of_mem _ hd))
          (by simp only [List.length_cons] at hf; omega)
        simp only [List.append_assoc, List.cons_append, List.nil_append] at H
        have elen : (pre ++ ['\\', c]).length = pre.length + 2 := by simp
        rw [elen] at H
        have eidx : ((pre.length + 2 : Nat) : Int) - 1 = ((pre.length + 1 : Nat) : Int) := by
          push_cast
          ring
        rw [eidx] at H
        exact H

/-!
The claims.
-/

/-- C1 (code bug): the spec's end-to-end example
`msg = "hi"` / `printf(msg)` must parse to a root with two statements and
compile; the code's `parse` instead returns `None` (the assignment on the
first line never parses, so `Block.parse` fails on its first line). -/
theorem end_to_end_example_fails_to_parse :
    parse ("msg = \"hi\"\nprintf(msg)") = .failed := rfl

/-- C2 (confirmed): forking a cursor at any offset and advancing the fork
any number of times never changes the source stream, only grows the shared
buffer (every previously buffered value, hence everything the parent can
read, is preserved, and the old buffer is a prefix of the new one), and
never moves the parent's position (`advanceN` involves no `update_parent`;
the parent index `c` is untouched by construction); committing
(`update_parent`) makes the parent's position exactly the fork's. -/
theorem mem_iter_fork_isolation {T : Type} (s : MemSt T) (c off : Int) (n : Nat) :
    (advanceN s (splitIdx c off) n).1.src = s.src ∧
    s.pulled ≤ (advanceN s (splitIdx c off) n).1.pulled ∧
    (∀ j : Int, memValue s j = none ∨
      memValue (advanceN s (splitIdx c off) n).1 j = memValue s j) ∧
    (advanceN s (splitIdx c off) n).1.buffer.take s.pulled = s.buffer ∧
    update_parent (advanceN s (splitIdx c off) n).2 c = (advanceN s (splitIdx c off) n).2 := by
  obtain ⟨h1, h2⟩ := advanceN_mle n s (splitIdx c off)
  refine ⟨h1, h2, ?_, ?_, rfl⟩
  · intro j
    cases hv : memValue s j with
    | none => exact Or.inl rfl
    | some v => exact Or.inr (memValue_mono h1 h2 hv)
  · rw [MemSt.buffer, MemSt.buffer, h1, List.take_take, min_eq_left h2]

/-- C3 (confirmed): for every fuel, every state (hence every token stream,
cursor position and context), `Assignment.parse` returns `None` and leaves
the context (in particular `local_vars`) unchanged: after the whitespace
skip the cursor always re-reads the `=` operator or a whitespace token, so
neither `StringLiteral` nor `CallStatement` can accept the assigned
value. -/
theorem assignment_parse_always_fails (fuel : Nat) (st : PState) (i : Int) :
    (Assignment.parse fuel st i).2.2 = .ok none ∧
    (Assignment.parse fuel st i).1.ctx = st.ctx := by
  suffices h : ∃ st' : PState, Assignment.parse fuel st i = (st', i, .ok none) ∧
      st'.ctx = st.ctx by
    obtain ⟨st', he, hc⟩ := h
    rw [he]
    exact ⟨rfl, hc⟩
  cases fuel with
  | zero => exact ⟨st, rfl, rfl⟩
  | succ fuel =>
    simp only [Assignment.parse]
    rcases hN : memNext st.mem (splitIdx i 0) with _ | ⟨m0, c0⟩
    · simp only [hN]
      exact ⟨st, rfl, rfl⟩
    · simp only [hN]
      rcases hA : Assignee.parse { st with mem := m0 } c0 with ⟨st1, c1, a?⟩
      have hctx1 : st1.ctx = st.ctx := by
        have h' := assignee_parse_ctx { st with mem := m0 } c0
        rw [hA] at h'
        exact h'
      cases a? with
      | none => exact ⟨st1, rfl, hctx1⟩
      | some anode =>
        simp only []
        rcases hOp : opScan (st1.mem.src.length + 2) st1.mem (splitIdx c1 1) c1 with
          ⟨m2, c2, found⟩
        cases found with
        | false => exact ⟨{ st1 with mem := m2 }, rfl, hctx1⟩
        | true =>
          simp only []
          have hOpWs2 : HasOpWs m2 c2 := opScan_found _ _ _ _ _ _ hOp
          rcases hW : wsSkip (m2.src.length + 2) m2 (splitIdx c2 1) c2 with ⟨m3, c3⟩
          simp only []
          have hOpWs3 : HasOpWs m3 c3 := by
            obtain ⟨t2, hv2, ht2⟩ := hOpWs2
            have h0 : (0 : Int) ≤ c2 := (memValue_nonneg hv2).1
            have hs1 : splitIdx c2 1 = c2 := splitIdx_one h0
            have hcore := wsSkip_opws (m2.src.length + 2) m2 (splitIdx c2 1) c2 h0
              (by rw [hs1]) ⟨t2, hv2, ht2⟩
              (by
                intro k hk1 hk2
                rw [hs1] at hk2
                exact absurd (lt_of_lt_of_le hk1 hk2) (lt_irrefl c2))
            rw [hW] at hcore
            exact hcore
          have hV := valueStatement_fails_at_opws fuel { st1 with mem := m3 } c3 hOpWs3
          simp only [hV]
          exact ⟨{ st1 with mem := m3 }, rfl, hctx1⟩

/-- C4 (code bug): a newline character is emitted as a `whitespace` token,
not a `new_line` token, because `tokenize_whitespace` is registered before
`tokenize_new_line` and Python's whitespace class matches `\n` (so the
new-line recognizer, and with it the `NEW_LINE` checks of `Block.parse`,
are unreachable); each space or tab still yields its own single-character
whitespace token, uncoalesced. -/
theorem newline_tokenized_as_whitespace :
    tokenize ("\n") = some [⟨.whitespace, "\n"⟩] ∧
    tokenize (" \t") = some [⟨.whitespace, " "⟩, ⟨.whitespace, "\t"⟩] := ⟨rfl, rfl⟩

/-- C5 counterexample: the claim says a literal opened by a quote `q` ends
only when the same `q` recurs, so `"a'b"` would be one literal with text
`a'b`; the code instead closes the literal at the apostrophe, leaving a
literal `a`, an identifier `b`, and a stray unknown `"`. -/
theorem string_literal_same_quote_counterexample :
    tokenize ("\"a'b\"") =
      some [⟨.string_literal, "a"⟩, ⟨.var_name, "b"⟩, ⟨.unknown, "\""⟩] := rfl

/-- C5 (amended): a string literal opened by any quote character consumes
characters, taking each backslash-plus-following-character pair (`esc`
pieces, including escaped quotes and escaped backslashes) verbatim into
the literal text, and terminates at the first unescaped occurrence of ANY
member of the quote set (not necessarily the opening quote); that closing
quote is consumed (the parent commits to its position) but excluded from
the token text. The body is an arbitrary list of pieces, each either an
ordinary non-quote non-backslash character or an escape pair. -/
theorem string_literal_closes_on_any_quote
    (q q' : Char) (body : List LitPiece) (rest : List Char)
    (hq : string_quotes.contains q = true)
    (hq' : string_quotes.contains q' = true)
    (hbody : ∀ pc ∈ body, pc.ok) :
    tokenize_string_literal ⟨q :: (litChars body ++ q' :: rest), 1⟩ 0 =
      (⟨q :: (litChars body ++ q' :: rest), (q :: litChars body).length + 1⟩,
        (((q :: litChars body).length : Nat) : Int),
        .tok ⟨.string_literal, String.mk (litChars body)⟩) := by
  have hqb : q' ≠ '\\' := quotes_ne_backslash hq'
  have hstep : memStep (⟨q :: (litChars body ++ q' :: rest), 1⟩ : MemSt Char)
      (splitIdx 0 0) = some (⟨q :: (litChars body ++ q' :: rest), 1⟩, 0, q) := rfl
  simp only [tokenize_string_literal]
  simp only [hstep]
  rw [if_pos hq]
  have H := scanLit_pieces body [q] rest q' [] (update_parent 0 0)
    ((q :: (litChars body ++ q' :: rest)).length + 2) hq' hqb hbody
    (by simp only [List.length_cons, List.length_append]; omega)
  simp only [List.singleton_append, List.nil_append] at H
  exact H

/-- C5 amended witness: a double-quote-opened literal whose body holds an
escaped apostrophe (taken verbatim) and that closes at a bare apostrophe. -/
theorem string_literal_closes_on_any_quote_witness :
    (string_quotes.contains (Char.ofNat 34) = true ∧
      string_quotes.contains (Char.ofNat 39) = true ∧
      (∀ pc ∈ [LitPiece.ord 'a', LitPiece.esc (Char.ofNat 39), LitPiece.ord 'b'],
        pc.ok)) ∧
    tokenize_string_literal
        ⟨[Char.ofNat 34, 'a', '\\', Char.ofNat 39, 'b', Char.ofNat 39], 1⟩ 0 =
      (⟨[Char.ofNat 34, 'a', '\\', Char.ofNat 39, 'b', Char.ofNat 39], 6⟩, (5 : Int),
        .tok ⟨.string_literal, String.mk ['a', '\\', Char.ofNat 39, 'b']⟩) :=
  ⟨⟨by decide, by decide, by decide⟩,
    string_literal_closes_on_any_quote (Char.ofNat 34) (Char.ofNat 39)
      [LitPiece.ord 'a', LitPiece.esc (Char.ofNat 39), LitPiece.ord 'b'] []
      (by decide) (by decide) (by decide)⟩

/-- C6 counterexample: were `Assignment` the only registered standalone
statement kind, `Statement.parse` would fail wherever `Assignment.parse`
fails; on a lone string-literal token `Assignment.parse` returns `None`
yet `Statement.parse` succeeds, through the also-registered
`ValueStatement`. -/
theorem statement_dispatch_assignment_only_counterexample :
    (Assignment.parse 8 ⟨⟨[]⟩, {}, ⟨[⟨.string_literal, "ok"⟩], 0⟩⟩ 0).2.2 = .ok none ∧
    (Statement.parse 9 ⟨⟨[]⟩, {}, ⟨[⟨.string_literal, "ok"⟩], 0⟩⟩ 0).2.2 =
      .ok (some (.string_lit ⟨.string_literal, "ok"⟩ .strT)) := ⟨rfl, rfl⟩

/-- C6 (amended): `Statement.parse` tries the standalone-registered kinds
in registration order and returns the first success, but the registry
holds `Assignment` AND `ValueStatement` (both declared `standalone =
True`), in that class-definition order — witnessed by a lone
string-literal token, rejected by `Assignment` and accepted through
`ValueStatement`. -/
theorem statement_dispatch_order_includes_value_statement :
    (∀ (fuel : Nat) (st : PState) (i : Int),
      Statement.parse (fuel + 1) st i =
        match Assignment.parse fuel st i with
        | (st1, i1, .ok none) => ValueStatement.parse fuel st1 i1
        | r => r) ∧
    (Statement.parse 9 ⟨⟨[]⟩, {}, ⟨[⟨.string_literal, "hi"⟩], 0⟩⟩ 0).2.2 =
      .ok (some (.string_lit ⟨.string_literal, "hi"⟩ .strT)) := by
  constructor
  · intro fuel st i
    rfl
  · rfl

/-- C7 (confirmed): comparing a freshly allocated `Infer` cell against any
type answers `True` and stores that type, after which `final_type`
returns it; `final_type` on a fresh never-compared `Infer` yields the
`TypeError` (modeled `none`), not a default. -/
theorem infer_unifies_and_final_type :
    (∀ (h : Heap) (t : DType),
      (dtypeEq (h.alloc).1 (.inferRef (h.alloc).2) t).2 = true ∧
      final_type (dtypeEq (h.alloc).1 (.inferRef (h.alloc).2) t).1
        (.inferRef (h.alloc).2) = some t) ∧
    (∀ h : Heap, final_type (h.alloc).1 (.inferRef (h.alloc).2) = none) := by
  constructor
  · intro h t
    refine ⟨rfl, ?_⟩
    show (match ((h.cells ++ [none]).set h.cells.length (some t)).get? h.cells.length with
      | some (some u) => some u
      | _ => none) = some t
    rw [get?_set_concat]
  · intro h
    show (match (h.cells ++ [none]).get? h.cells.length with
      | some (some u) => some u
      | _ => none) = none
    rw [get?_concat]

/-- C8 (code bug): the claim's setup — a successful `x = "a"` binding `x`
to the string type — cannot be produced by the code: even the setup
assignment parses to `None` (the whole program fails to parse) and
`local_vars` stays empty, so no binding ever exists to preserve. -/
theorem type_mismatch_setup_assignment_fails :
    parse ("x = \"a\"") = .failed ∧
    (Assignment.parse 32 ⟨⟨[]⟩, {}, ⟨(tokenizeRun ("x = \"a\"")).1, 0⟩⟩ 0).2.2 = .ok none ∧
    (Assignment.parse 32 ⟨⟨[]⟩, {}, ⟨(tokenizeRun ("x = \"a\"")).1, 0⟩⟩ 0).1.ctx.local_vars =
      [] := ⟨rfl, rfl, rfl⟩

/-- C9 counterexample: the claim says tokenizing a finite input never
raises; on the two-character input `"\` (a literal opened and ended right
after a backslash) the raw `next(char)` in `tokenize_string_literal`
raises `StopIteration` (a `RuntimeError` out of the generator), modeled as
the `none` outcome. -/
theorem tokenize_raises_counterexample : tokenize ("\"\\") = none := rfl

/-- C9 (amended): every recognizer except the string-literal one always
terminates with a token or a decline (`TokOrNoMatch`) and never raises;
the string-literal recognizer can raise (uncaught `StopIteration`), as it
does when the input ends immediately after a backslash escape. -/
theorem recognizers_raise_only_in_string_literal :
    (∀ (s : MemSt Char) (i : Int), TokOrNoMatch (tokenize_whitespace s i).2.2) ∧
    (∀ (s : MemSt Char) (i : Int), TokOrNoMatch (tokenize_operator s i).2.2) ∧
    (∀ (s : MemSt Char) (i : Int), TokOrNoMatch (tokenize_var_name s i).2.2) ∧
    (∀ (s : MemSt Char) (i : Int), TokOrNoMatch (tokenize_new_line s i).2.2) ∧
    (∀ (s : MemSt Char) (i : Int), TokOrNoMatch (tokenize_unknown s i).2.2) ∧
    (tokenize_string_literal ⟨['"', '\\'], 1⟩ 0).2.2 = .exc := by
  refine ⟨?_, ?_, ?_, ?_, ?_, rfl⟩
  · intro s i
    simp only [tokenize_whitespace]
    rcases hs : memStep s (splitIdx i 0) with _ | ⟨s1, c1, ch⟩
    · exact Or.inl rfl
    · simp only [hs]
      by_cases hw : isPyWhitespace ch = true
      · rw [if_pos hw]
        exact Or.inr ⟨⟨.whitespace, String.mk [ch]⟩, rfl⟩
      · rw [if_neg hw]
        exact Or.inl rfl
  · intro s i
    exact opLoop_tok_or_noMatch operators_max_size i s (splitIdx i 0) []
  · intro s i
    simp only [tokenize_var_name]
    rcases hs : memStep s (splitIdx i 0) with _ | ⟨s1, c1, ch⟩
    · exact varLoop_tok_or_noMatch _ _ _ _ _
    · simp only [hs]
      by_cases hv : isVarStart ch = true
      · rw [if_pos hv]
        exact varLoop_tok_or_noMatch _ _ _ _ _
      · rw [if_neg hv]
        exact Or.inl rfl
  · intro s i
    simp only [tokenize_new_line]
    rcases hs : memStep s (splitIdx i 0) with _ | ⟨s1, c1, ch⟩
    · exact Or.inl rfl
    · simp only [hs]
      by_cases hn : ch = '\n'
      · rw [if_pos hn]
        exact Or.inr ⟨⟨.new_line, String.mk [ch]⟩, rfl⟩
      · rw [if_neg hn]
        exact Or.inl rfl
  · intro s i
    simp only [tokenize_unknown]
    rcases hs : memStep s (splitIdx i 0) with _ | ⟨s1, c1, ch⟩
    · exact Or.inl rfl
    · simp only [hs]
      exact Or.inr ⟨⟨.unknown, String.mk [ch]⟩, rfl⟩

/-- C10 counterexample: the claim says a line with mismatching indentation
stops the block and returns the block built so far; on a stream whose
first line is a parseable string-literal statement (shown parseable on its
own) and whose second line is over-indented, `Block.parse` returns `None`,
discarding the already-parsed statement, instead of returning the partial
block. -/
theorem block_indent_mismatch_counterexample :
    (Block.parse 20 ⟨⟨[]⟩, {}, ⟨[⟨.string_literal, "a"⟩], 0⟩⟩ (-1)).2.2 =
      .ok (some (.block [.string_lit ⟨.string_literal, "a"⟩ .strT])) ∧
    (Block.parse 50 ⟨⟨[]⟩, {}, ⟨[⟨.string_literal, "a"⟩, ⟨.whitespace, "\n"⟩,
        ⟨.whitespace, " "⟩, ⟨.string_literal, "b"⟩], 0⟩⟩ (-1)).2.2 = .ok none :=
  ⟨rfl, rfl⟩

/-- C10 (amended): when the block loop reaches a line (not starting with
`)`) whose measured leading-whitespace count differs from
`context.whitespace` and that is not a blank line, `Block.parse` stops and
returns `None` — a parse failure of the whole block that discards the
statements accumulated so far — rather than returning the partial block
with the mismatching line left to the caller. -/
theorem block_indent_mismatch_returns_none (fuel : Nat) (st : PState) (i : Int)
    (acc : List Node) (m1 m2 : MemSt Token) (i1 i2 : Int) (t : Token) (cnt : Nat)
    (hstep : memStep st.mem i = some (m1, i1, t))
    (hparen : t.value ≠ ")")
    (hws : wsCount (m1.src.length + 2) m1 (splitIdx i1 0) i1 0 = (m2, i2, cnt, false))
    (hne : st.ctx.whitespace ≠ cnt) :
    blockLoop (fuel + 1) st i acc = ({ st with mem := m2 }, i2, .ok none) := by
  simp only [blockLoop]
  simp only [hstep]
  rw [if_neg hparen]
  simp only [hws]
  rw [if_pos hne]

/-- C10 amended witness: a stream starting with one whitespace token under
an expected indentation of zero. -/
theorem block_indent_mismatch_returns_none_witness :
    (memStep (⟨[⟨.whitespace, " "⟩, ⟨.string_literal, "x"⟩], 0⟩ : MemSt Token) (-1) =
        some (⟨[⟨.whitespace, " "⟩, ⟨.string_literal, "x"⟩], 1⟩, 0, ⟨.whitespace, " "⟩) ∧
      (" " : String) ≠ ")" ∧
      wsCount 4 ⟨[⟨.whitespace, " "⟩, ⟨.string_literal, "x"⟩], 1⟩ (splitIdx 0 0) 0 0 =
        (⟨[⟨.whitespace, " "⟩, ⟨.string_literal, "x"⟩], 2⟩, 0, 1, false) ∧
      (0 : Nat) ≠ 1) ∧
    blockLoop 6 ⟨⟨[]⟩, {}, ⟨[⟨.whitespace, " "⟩, ⟨.string_literal, "x"⟩], 0⟩⟩ (-1) [] =
      (⟨⟨[]⟩, {}, ⟨[⟨.whitespace, " "⟩, ⟨.string_literal, "x"⟩], 2⟩⟩, 0, .ok none) :=
  ⟨⟨rfl, by decide, rfl, by decide⟩,
    block_indent_mismatch_returns_none 5
      ⟨⟨[]⟩, {}, ⟨[⟨.whitespace, " "⟩, ⟨.string_literal, "x"⟩], 0⟩⟩ (-1) []
      ⟨[⟨.whitespace, " "⟩, ⟨.string_literal, "x"⟩], 1⟩
      ⟨[⟨.whitespace, " "⟩, ⟨.string_literal, "x"⟩], 2⟩ 0 0 ⟨.whitespace, " "⟩ 1
      rfl (by decide) rfl (by decide)⟩

end Sesa
